import Mathlib

/-
Verification of the quant_agent core pipeline: a shallow embedding of the
feature, signal, backtest, market-state and position-sizing code, with
theorems settling the specification claims about them.

Conventions of the embedding:
- a pandas Series / DataFrame column is a `List ℚ` (or `List (Option ℚ)` /
  `List (Option ℝ)` when entries can be NaN: `none` stands for NaN);
- float arithmetic is idealised as exact arithmetic over `ℚ`, with `ℝ` used
  where the source takes square roots or real powers;
- any comparison against NaN is false, as in pandas.
-/

/-- pandas `Series.shift(1).fillna(0)` on a numeric column: drop the last
entry, prepend 0, keeping the length. -/
def shiftFill (l : List ℚ) : List ℚ := (0 :: l).take l.length

/-- pandas `Series.shift(1)` on a column that may hold NaN. -/
def shiftOpt (l : List (Option ℚ)) : List (Option ℚ) :=
  ((none : Option ℚ) :: l).take l.length

/-- pandas `Series.cumprod()`. -/
def cumprod (l : List ℚ) : List ℚ := (l.scanl (· * ·) 1).tail

/-- Running maximum continuing from an already-seen maximum `m`. -/
def cummaxFrom (m : ℚ) : List ℚ → List ℚ
  | [] => []
  | x :: xs => max m x :: cummaxFrom (max m x) xs

/-- pandas `Series.cummax()`. -/
def cummax : List ℚ → List ℚ
  | [] => []
  | x :: xs => x :: cummaxFrom x xs

/-- pandas `Series.min()`, with the empty series mapped to 0 (the source
guards the empty case explicitly). -/
def listMin : List ℚ → ℚ
  | [] => 0
  | x :: xs => xs.foldl min x

/-- Maximum of a nonempty list, 0 for the empty list. -/
def listMax : List ℚ → ℚ
  | [] => 0
  | x :: xs => xs.foldl max x

/-- The window of (at most) the last `w` values of `l` ending at index `t`
inclusive. -/
def windowAt (l : List ℚ) (w t : ℕ) : List ℚ := (l.take (t + 1)).drop (t + 1 - w)

/-- pandas `rolling(window=w, min_periods=w).mean()` at index `t`: defined
iff index `t` exists and the window is full, i.e. `w ≤ t + 1`. -/
def rollingMeanAt (l : List ℚ) (w t : ℕ) : Option ℚ :=
  if w ≤ t + 1 ∧ t < l.length then some ((windowAt l w t).sum / w) else none

/-- pandas `rolling(window=w, min_periods=w).var(ddof=0)` at index `t`:
population variance of the window, divisor `w` (not `w - 1`). -/
def rollingVarPopAt (l : List ℚ) (w t : ℕ) : Option ℚ :=
  match rollingMeanAt l w t with
  | none => none
  | some m => some (((windowAt l w t).map (fun x => (x - m) ^ 2)).sum / w)

/-- One `ma_w` column produced by `features.add_moving_averages`: the rolling
mean of the close column, NaN (`none`) until `w` observations exist. -/
def maColumn (closes : List ℚ) (w : ℕ) : List (Option ℚ) :=
  (List.range closes.length).map (fun t => rollingMeanAt closes w t)

/-- Entry `t` of the z-score column of `features.add_zscore`:
`(close[t] - rolling mean) / rolling population std`.  NaN (`none`) while the
window is unfilled; also NaN when the rolling std is 0, since the source then
divides `close[t] - mean = 0` by `0` (a float `0/0`). -/
noncomputable def zscoreAt (closes : List ℚ) (w t : ℕ) : Option ℝ :=
  match rollingMeanAt closes w t, rollingVarPopAt closes w t with
  | some m, some v =>
      if v = 0 then none
      else some (((closes.getD t 0 : ℚ) - m) / Real.sqrt (v : ℝ))
  | _, _ => none

/-- The full z-score column of `features.add_zscore`. -/
noncomputable def zscoreColumn (closes : List ℚ) (w : ℕ) : List (Option ℝ) :=
  (List.range closes.length).map (fun t => zscoreAt closes w t)

/-- The `ret` column of `features.add_daily_returns`:
`Close.pct_change().fillna(0.0)`. -/
def retColumn (closes : List ℚ) : List ℚ :=
  (List.range closes.length).map (fun t =>
    if t = 0 then 0 else closes.getD t 0 / closes.getD (t - 1) 0 - 1)

/-- Strategy configuration consumed by `strategy.py` (the fields of
`config.StrategyConfig` that the strategy module reads). -/
structure StrategyConfig where
  name : String
  mr_window : ℕ
  mr_threshold : ℚ
  mom_short_window : ℕ
  mom_long_window : ℕ

/-- The feature columns added by `strategy.prepare_features`.  The source
stores the `ma_w` columns for the configured windows in the frame; here the
column for a window `w` is recovered from the function `ma`. -/
structure FeatFrame where
  closes : List ℚ
  ret : List ℚ
  ma : ℕ → List (Option ℚ)
  zscore : List (Option ℝ)

/-- Embedding of `strategy.prepare_features`: adds daily returns, moving
averages for the configured windows, and the z-score over `mr_window`. -/
noncomputable def prepare_features (closes : List ℚ) (cfg : StrategyConfig) :
    FeatFrame :=
  { closes := closes
    ret := retColumn closes
    ma := fun w => maColumn closes w
    zscore := zscoreColumn closes cfg.mr_window }

/-- Result of a signal generator: the feature frame plus the signal column. -/
structure StrategyResult where
  data : FeatFrame
  signal : List ℚ

/-- One bar of `strategy.mean_reversion_signals`.  The source initialises the
column to 0, then writes 1 where `zscore < -threshold` and afterwards 0 where
`zscore > threshold`; comparisons against NaN are false.  The trailing
`.ffill().fillna(0)` of the source is the identity because the column was
initialised to numeric 0 on every row and hence holds no NaN. -/
noncomputable def mrSignalAt (thr : ℚ) (z : Option ℝ) : ℚ :=
  match z with
  | none => 0
  | some zv => if zv > (thr : ℝ) then 0 else if zv < -(thr : ℝ) then 1 else 0

/-- Embedding of `strategy.mean_reversion_signals`. -/
noncomputable def mean_reversion_signals (f : FeatFrame) (cfg : StrategyConfig) :
    StrategyResult :=
  { data := f, signal := f.zscore.map (mrSignalAt cfg.mr_threshold) }

/-- NaN-aware `≤` on optional values: false when either side is NaN. -/
def oLE (a b : Option ℚ) : Bool :=
  match a, b with
  | some x, some y => decide (x ≤ y)
  | _, _ => false

/-- NaN-aware `<` on optional values: false when either side is NaN. -/
def oLT (a b : Option ℚ) : Bool :=
  match a, b with
  | some x, some y => decide (x < y)
  | _, _ => false

/-- NaN-propagating subtraction. -/
def subOpt (a b : Option ℚ) : Option ℚ :=
  match a, b with
  | some x, some y => some (x - y)
  | _, _ => none

/-- One bar of `strategy.momentum_signals` given the previous and current
`ma_diff` value.  The source initialises the column to 0, then writes 1 on
the buy mask `diff_prev ≤ 0 ∧ diff > 0` and afterwards 0 on the sell mask
`diff_prev ≥ 0 ∧ diff < 0`; as in the source the trailing `.ffill().fillna(0)`
is the identity on this NaN-free column. -/
def momSignalAt (dp d : Option ℚ) : ℚ :=
  if oLE (some 0) dp && oLT d (some 0) then 0
  else if oLE dp (some 0) && oLT (some 0) d then 1
  else 0

/-- The signal column of `strategy.momentum_signals` from the two moving
average columns: `ma_diff = ma_short - ma_long`, `ma_diff_prev = shift(1)`. -/
def momentumSignalList (maShort maLong : List (Option ℚ)) : List ℚ :=
  let diff := List.zipWith subOpt maShort maLong
  List.zipWith momSignalAt (shiftOpt diff) diff

/-- Embedding of `strategy.momentum_signals`. -/
noncomputable def momentum_signals (f : FeatFrame) (cfg : StrategyConfig) :
    StrategyResult :=
  { data := f
    signal := momentumSignalList (f.ma cfg.mom_short_window) (f.ma cfg.mom_long_window) }

/-- Embedding of `strategy.build_strategy`: prepares features, dispatches on
the configured name, and raises `ValueError` (here `Except.error`) on any
other name. -/
noncomputable def build_strategy (closes : List ℚ) (cfg : StrategyConfig) :
    Except String StrategyResult :=
  let f := prepare_features closes cfg
  if cfg.name = "mean_reversion" then .ok (mean_reversion_signals f cfg)
  else if cfg.name = "momentum" then .ok (momentum_signals f cfg)
  else .error ("Unknown strategy name: " ++ cfg.name)

/-- The mean-reversion signal process as the specification claims it: a state
machine over the z-score column that starts at 0, enters (1) when
`zscore < -threshold`, exits (0) when `zscore > threshold`, and on every other
bar (including bars with an undefined z-score, which fires neither condition)
holds its previous value. -/
noncomputable def mrStateMachineSpec (thr : ℚ) : List (Option ℝ) → ℚ → List ℚ
  | [], _ => []
  | z :: zs, prev =>
      let cur : ℚ :=
        match z with
        | none => prev
        | some zv =>
            if zv < -(thr : ℝ) then 1 else if zv > (thr : ℝ) then 0 else prev
      cur :: mrStateMachineSpec thr zs cur

/-- Backtest configuration consumed by `backtester.run_backtest` (the fields
of `config.BacktestConfig` that it reads). -/
structure BacktestConfig where
  initial_cash : ℚ
  max_position : ℚ
  fee_rate : ℚ

/-- pandas `Series.clip(lower=0, upper=1)` on one entry. -/
def clip01 (x : ℚ) : ℚ := min (max x 0) 1

/-- The target position column of `run_backtest`:
`signal.clip(lower=0, upper=1) * max_position`. -/
def positionList (signal : List ℚ) (cfg : BacktestConfig) : List ℚ :=
  signal.map (fun s => clip01 s * cfg.max_position)

/-- The lagged position column of `run_backtest`:
`position.shift(1).fillna(0)`. -/
def positionPrevList (signal : List ℚ) (cfg : BacktestConfig) : List ℚ :=
  shiftFill (positionList signal cfg)

/-- The turnover column of `run_backtest`: `(position - position_prev).abs()`. -/
def turnoverList (signal : List ℚ) (cfg : BacktestConfig) : List ℚ :=
  List.zipWith (fun p q => |p - q|) (positionList signal cfg) (positionPrevList signal cfg)

/-- The net-return column of `run_backtest`:
`position_prev * ret - turnover * fee_rate`. -/
def netRetList (signal ret : List ℚ) (cfg : BacktestConfig) : List ℚ :=
  List.zipWith (fun g f => g - f)
    (List.zipWith (fun p r => p * r) (positionPrevList signal cfg) ret)
    ((turnoverList signal cfg).map (fun x => x * cfg.fee_rate))

/-- The equity column of `run_backtest`:
`(1 + net_ret).cumprod() * initial_cash`. -/
def equityList (signal ret : List ℚ) (cfg : BacktestConfig) : List ℚ :=
  (cumprod ((netRetList signal ret cfg).map (fun x => 1 + x))).map
    (fun x => x * cfg.initial_cash)

/-- Sample variance with divisor `n - 1` (pandas `Series.std()` squared,
`ddof = 1`).  pandas yields NaN for fewer than 2 observations; the claims
about the statistics only quantify over runs with at least 2 bars, so that
case is mapped to 0 here. -/
def sampleVar (l : List ℚ) : ℚ :=
  if 2 ≤ l.length then
    ((l.map (fun x => (x - l.sum / l.length) ^ 2)).sum) / (l.length - 1)
  else 0

/-- The summary statistics mapping returned by `run_backtest`. -/
structure BacktestStats where
  total_return : ℚ
  annual_return : ℝ
  annual_volatility : ℝ
  sharpe : ℝ
  max_drawdown : ℚ
  num_days : ℕ

/-- The `total_ret` of `run_backtest`:
`equity.iloc[-1] / equity.iloc[0] - 1 if len(equity) > 1 else 0.0`. -/
def totalRetOf (equity : List ℚ) : ℚ :=
  if 1 < equity.length then equity.getLastD 0 / equity.headD 0 - 1 else 0

/-- The `ann_ret` of `run_backtest`:
`(1 + total_ret) ** (252 / len(df)) - 1 if len(df) > 0 else 0.0`. -/
noncomputable def annRetOf (totalRet : ℚ) (n : ℕ) : ℝ :=
  if 0 < n then (1 + (totalRet : ℝ)) ^ ((252 : ℝ) / n) - 1 else 0

/-- The `ann_vol` of `run_backtest`: `daily_ret.std() * np.sqrt(252)`. -/
noncomputable def annVolOf (netRet : List ℚ) : ℝ :=
  Real.sqrt (sampleVar netRet : ℝ) * Real.sqrt 252

/-- The `sharpe` of `run_backtest`: `ann_ret / ann_vol if ann_vol > 0 else 0.0`. -/
noncomputable def sharpeOf (annRet annVol : ℝ) : ℝ :=
  if 0 < annVol then annRet / annVol else 0

/-- The drawdown column of `run_backtest`: `equity / equity.cummax() - 1`. -/
def drawdownList (equity : List ℚ) : List ℚ :=
  List.zipWith (fun e m => e / m - 1) equity (cummax equity)

/-- The `max_dd` of `run_backtest`: `drawdown.min()` (0 for an empty run). -/
def maxDrawdownOf (equity : List ℚ) : ℚ :=
  listMin (drawdownList equity)

/-- Result of `backtester.run_backtest`: the frame columns it appends and the
statistics mapping. -/
structure BacktestResult where
  net_ret : List ℚ
  equity : List ℚ
  stats : BacktestStats

/-- Embedding of `backtester.run_backtest` over the signal column and the
per-period raw return column of the input frame. -/
noncomputable def run_backtest (signal ret : List ℚ) (cfg : BacktestConfig) :
    BacktestResult :=
  let netRet := netRetList signal ret cfg
  let equity := equityList signal ret cfg
  let totalRet := totalRetOf equity
  let annRet := annRetOf totalRet signal.length
  let annVol := annVolOf netRet
  { net_ret := netRet
    equity := equity
    stats :=
      { total_return := totalRet
        annual_return := annRet
        annual_volatility := annVol
        sharpe := sharpeOf annRet annVol
        max_drawdown := maxDrawdownOf equity
        num_days := signal.length } }

/-- The market regime enumeration of `market_state.MarketRegime`. -/
inductive MarketRegime where
  | trending_up
  | trending_down
  | ranging
  | high_volatility
  | low_volatility
deriving DecidableEq

/-- The `market_state.MarketState` snapshot (the fields the claims are
about). -/
structure MarketState where
  regime : MarketRegime
  volatility : ℚ
  trend_strength : ℚ
  adx : ℚ
  is_bullish : Bool
  is_bearish : Bool

/-- Embedding of the classification part of `market_state.identify_market_state`
(lines 140-173), given the last-row indicator values it computed just before:
the last 20- and 60-bar moving averages (`none` when NaN), the last close,
the last ADX value (`none` when NaN), and the annualised volatility.
Comparisons against NaN are false. -/
def identify_market_state (maShort maLong : Option ℚ) (price : ℚ)
    (currentAdx : Option ℚ) (volatility : ℚ) : MarketState :=
  let isBullish := oLT maLong maShort && oLT maShort (some price)
  let isBearish := oLT maShort maLong && oLT (some price) maShort
  let trendStrength : ℚ :=
    match currentAdx with
    | none => 0
    | some a => min (a / 25) 1
  let regime :=
    if 1 / 2 < trendStrength then
      if isBullish then MarketRegime.trending_up
      else if isBearish then MarketRegime.trending_down
      else MarketRegime.ranging
    else
      if 3 / 10 < volatility then MarketRegime.high_volatility
      else MarketRegime.low_volatility
  { regime := regime
    volatility := volatility
    trend_strength := trendStrength
    adx := currentAdx.getD 0
    is_bullish := isBullish
    is_bearish := isBearish }

/-- Embedding of `market_state.get_optimal_strategy_for_regime`. -/
def get_optimal_strategy_for_regime (ms : MarketState) : String :=
  if ms.regime = MarketRegime.trending_up ∨ ms.regime = MarketRegime.trending_down then
    "momentum"
  else if ms.regime = MarketRegime.ranging then "mean_reversion"
  else if ms.regime = MarketRegime.high_volatility then "mean_reversion"
  else "momentum"

/-- Embedding of `position_sizing.kelly_position_size`. -/
def kelly_position_size (win_rate avg_win avg_loss kelly_fraction : ℚ) : ℚ :=
  if avg_loss = 0 ∨ win_rate ≤ 0 then 0
  else
    let b := avg_win / |avg_loss|
    let kelly := (win_rate * b - (1 - win_rate)) / b
    max 0 (min kelly (1 / 2)) * kelly_fraction

/-- Embedding of `position_sizing.fixed_fractional_position_size`.  As in the
source, `risk_amount = equity * risk_per_trade` is computed but never used:
the returned position is `min(risk_per_trade / stop_loss_pct, max_position)`. -/
def fixed_fractional_position_size (equity risk_per_trade stop_loss_pct
    max_position : ℚ) : ℚ :=
  if stop_loss_pct ≤ 0 then 0
  else
    let riskAmount := equity * risk_per_trade
    min (risk_per_trade / stop_loss_pct) max_position

/-- The entry indices of `position_sizing.calculate_trade_statistics`:
positions where `signals.diff() == 1`.  `diff` is NaN at index 0, and a NaN
compares unequal to 1, so index 0 is never an entry. -/
def entryPoints (signals : List ℚ) : List ℕ :=
  (List.range signals.length).filter
    (fun i => decide (0 < i) && decide (signals.getD i 0 - signals.getD (i - 1) 0 = 1))

/-- The exit indices of `calculate_trade_statistics`: positions where
`signals.diff() == -1`. -/
def exitPoints (signals : List ℚ) : List ℕ :=
  (List.range signals.length).filter
    (fun i => decide (0 < i) && decide (signals.getD i 0 - signals.getD (i - 1) 0 = -1))

/-- The nearest exit strictly after an entry, if any:
`exit_points[exit_points > entry][0]`. -/
def firstExitAfter (exits : List ℕ) (entry : ℕ) : Option ℕ :=
  (exits.filter (fun x => decide (entry < x))).head?

/-- One trade's return in `calculate_trade_statistics`: the compounded product
of the equity percentage changes over the inclusive index range
`[entry, exit]`, minus 1.  Entries always have index at least 1, so the NaN
that `pct_change` places at index 0 is never inside the range. -/
def tradeReturn (equity : List ℚ) (entry exit : ℕ) : ℚ :=
  (((List.range (exit + 1 - entry)).map
    (fun k => 1 + (equity.getD (entry + k) 0 / equity.getD (entry + k - 1) 0 - 1))).prod) - 1

/-- The per-trade return list of `calculate_trade_statistics`: each entry is
paired with the nearest following exit; entries with no following exit
contribute nothing. -/
def tradeReturnsList (equity signals : List ℚ) : List ℚ :=
  (entryPoints signals).filterMap
    (fun e => (firstExitAfter (exitPoints signals) e).map (fun x => tradeReturn equity e x))

/-- The aggregate mapping returned by `calculate_trade_statistics`. -/
structure TradeStats where
  win_rate : ℚ
  avg_win : ℚ
  avg_loss : ℚ
  num_trades : ℕ
deriving DecidableEq

/-- Embedding of `position_sizing.calculate_trade_statistics`.  The two early
returns of the source (no entries at all, or no completed trades) both
correspond to `tradeReturnsList` being empty. -/
def calculate_trade_statistics (equity signals : List ℚ) : TradeStats :=
  let tr := tradeReturnsList equity signals
  if tr.length = 0 then
    { win_rate := 0, avg_win := 0, avg_loss := 0, num_trades := 0 }
  else
    let wins := tr.filter (fun x => decide (0 < x))
    let losses := tr.filter (fun x => decide (x < 0))
    { win_rate := (wins.length : ℚ) / (tr.length : ℚ)
      avg_win := if wins.length = 0 then 0 else wins.sum / (wins.length : ℚ)
      avg_loss := if losses.length = 0 then 0 else |losses.sum / (losses.length : ℚ)|
      num_trades := tr.length }

/-- A DataFrame column in the aliasing model: float entries that may be NaN
(`none`). -/
abbrev Column := List (Option ℝ)

/-- A DataFrame as an association list of named columns. -/
abbrev Frame := List (String × Column)

/-- Read a column of a frame (`df[c]`); `[]` when absent. -/
def getCol (f : Frame) (c : String) : Column :=
  ((f.find? (fun p => p.1 = c)).map (fun p => p.2)).getD []

/-- Column assignment (`df[c] = v`): replace the column when present,
otherwise append it. -/
def setCol (f : Frame) (c : String) (v : Column) : Frame :=
  if f.any (fun p => p.1 = c) then
    f.map (fun p => if p.1 = c then (c, v) else p)
  else f ++ [(c, v)]

/-- NaN-propagating sum of a column window. -/
noncomputable def optSumR : List (Option ℝ) → Option ℝ
  | [] => some 0
  | a :: l =>
      match a, optSumR l with
      | some x, some s => some (x + s)
      | _, _ => none

/-- pandas `rolling(w, min_periods=w).mean()` over a column that may hold
NaN: NaN until the window is full, and NaN whenever the window holds a NaN. -/
noncomputable def rollingMeanAtR (l : Column) (w t : ℕ) : Option ℝ :=
  if w ≤ t + 1 ∧ t < l.length then
    (optSumR ((l.take (t + 1)).drop (t + 1 - w))).map (fun s => s / w)
  else none

/-- One `ma_w` column over a NaN-carrying close column. -/
noncomputable def maColumnR (close : Column) (w : ℕ) : Column :=
  (List.range close.length).map (fun t => rollingMeanAtR close w t)

/-- The z-score column over a NaN-carrying close column (population std,
NaN while the window is unfilled or the std is 0). -/
noncomputable def zscoreAtR (l : Column) (w t : ℕ) : Option ℝ :=
  match rollingMeanAtR l w t with
  | none => none
  | some m =>
      match optSumR (((l.take (t + 1)).drop (t + 1 - w)).map
          (fun x => x.map (fun v => (v - m) ^ 2))) with
      | none => none
      | some s2 =>
          if s2 / w = 0 then none
          else (l.getD t none).map (fun c => (c - m) / Real.sqrt (s2 / w))

/-- Frame-level effect of `features.add_moving_averages`: for each window `w`
assigns the column `ma_w` into the very frame it was given. -/
noncomputable def addMovingAveragesFrame (f : Frame) (ws : List ℕ) : Frame :=
  ws.foldl
    (fun acc w => setCol acc ("ma_" ++ toString w) (maColumnR (getCol acc "Close") w)) f

/-- Frame-level effect of `features.add_zscore`: assigns the `zscore` column
into the frame it was given. -/
noncomputable def addZscoreFrame (f : Frame) (w : ℕ) : Frame :=
  setCol f "zscore"
    ((List.range (getCol f "Close").length).map (fun t => zscoreAtR (getCol f "Close") w t))

/-- Frame-level effect of `features.add_daily_returns`: assigns the `ret`
column `Close.pct_change().fillna(0)` into the frame it was given. -/
noncomputable def addDailyReturnsFrame (f : Frame) : Frame :=
  setCol f "ret"
    ((List.range (getCol f "Close").length).map (fun t =>
      if t = 0 then some 0
      else
        match (getCol f "Close").getD t none, (getCol f "Close").getD (t - 1) none with
        | some a, some b => some (a / b - 1)
        | _, _ => some 0))

/-- The mutable-store model of DataFrame objects: a reference is an index
into the store.  This captures which object each pandas statement writes. -/
abbrev Store := List Frame

/-- Dereference (`[]` for a dangling reference). -/
def readRef (st : Store) (r : ℕ) : Frame := st.getD r []

/-- In-place update of the object a reference denotes. -/
def writeRef (st : Store) (r : ℕ) (f : Frame) : Store := st.set r f

/-- `df.copy()`: allocate a fresh object with the same contents and return
the new reference. -/
def copyRef (st : Store) (r : ℕ) : Store × ℕ := (st ++ [readRef st r], st.length)

/-- Store-level `features.add_moving_averages`: mutates the frame behind the
reference it was passed and returns that same reference. -/
noncomputable def add_moving_averages (st : Store) (r : ℕ) (ws : List ℕ) :
    Store × ℕ :=
  (writeRef st r (addMovingAveragesFrame (readRef st r) ws), r)

/-- Store-level `features.add_zscore`: mutates in place, returns the same
reference. -/
noncomputable def add_zscore (st : Store) (r : ℕ) (w : ℕ) : Store × ℕ :=
  (writeRef st r (addZscoreFrame (readRef st r) w), r)

/-- Store-level `features.add_daily_returns`: mutates in place, returns the
same reference. -/
noncomputable def add_daily_returns (st : Store) (r : ℕ) : Store × ℕ :=
  (writeRef st r (addDailyReturnsFrame (readRef st r)), r)

/-- Store-level `strategy.prepare_features`: first `df = df.copy()`, then the
three feature functions mutate the copy. -/
noncomputable def prepare_features_ref (st : Store) (r : ℕ) (cfg : StrategyConfig) :
    Store × ℕ :=
  let c := copyRef st r
  let a := add_daily_returns c.1 c.2
  let b := add_moving_averages a.1 a.2
      [cfg.mr_window, cfg.mom_short_window, cfg.mom_long_window]
  add_zscore b.1 b.2 cfg.mr_window

/-- NaN-propagating binary lift on column entries. -/
def oMap2 (f : ℝ → ℝ → ℝ) (a b : Option ℝ) : Option ℝ :=
  match a, b with
  | some x, some y => some (f x y)
  | _, _ => none

/-- The net-return column of `run_backtest` over NaN-carrying signal and
return columns (same pipeline as `netRetList`, one abstraction level up). -/
noncomputable def netRetColumnR (signal ret : Column) (cfg : BacktestConfig) :
    Column :=
  let pos := signal.map (fun s =>
    s.map (fun x => min (max x 0) 1 * (cfg.max_position : ℝ)))
  let posPrev := ((some 0 : Option ℝ) :: pos).take pos.length
  let turnover := List.zipWith (oMap2 (fun p q => |p - q|)) pos posPrev
  List.zipWith (oMap2 (fun g f => g - f))
    (List.zipWith (oMap2 (fun p r => p * r)) posPrev ret)
    (turnover.map (fun x => x.map (fun v => v * (cfg.fee_rate : ℝ))))

/-- The equity column of `run_backtest` over NaN-carrying columns:
`(1 + net_ret).cumprod() * initial_cash`. -/
noncomputable def equityColumnR (netRet : Column) (cfg : BacktestConfig) :
    Column :=
  ((netRet.scanl (fun acc x => oMap2 (fun a v => a * v) acc (x.map (fun v => 1 + v)))
    (some 1)).tail).map (fun x => x.map (fun v => v * (cfg.initial_cash : ℝ)))

/-- Store-level frame handling of `backtester.run_backtest`: first
`df = df.copy()`, then the `net_ret` and `equity` columns are assigned into
the copy; the caller's frame is never written. -/
noncomputable def run_backtest_ref (st : Store) (r : ℕ) (signalCol : String)
    (cfg : BacktestConfig) : Store × ℕ :=
  let c := copyRef st r
  let f := readRef c.1 c.2
  let netRet := netRetColumnR (getCol f signalCol) (getCol f "ret") cfg
  let f1 := setCol f "net_ret" netRet
  let f2 := setCol f1 "equity" (equityColumnR netRet cfg)
  (writeRef c.1 c.2 f2, c.2)

/-- Store-level `strategy.mean_reversion_signals`: first `df = df.copy()`,
then the `signal_mr` column (the same per-bar rule as `mrSignalAt`, applied to
the copy's `zscore` column) is assigned into the copy; the caller's frame is
never written. -/
noncomputable def mean_reversion_signals_ref (st : Store) (r : ℕ)
    (cfg : StrategyConfig) : Store × ℕ :=
  let c := copyRef st r
  let f := readRef c.1 c.2
  (writeRef c.1 c.2
    (setCol f "signal_mr"
      ((getCol f "zscore").map (fun z => some ((mrSignalAt cfg.mr_threshold z : ℚ) : ℝ)))),
    c.2)

/-- One bar of `strategy.momentum_signals` over NaN-carrying `ma_diff`
values (same masks as `momSignalAt`, at the column value type): the sell mask
`diff_prev ≥ 0 ∧ diff < 0` wins over the buy mask
`diff_prev ≤ 0 ∧ diff > 0`; bars where neither fires keep the initial 0. -/
noncomputable def momSignalAtR (dp d : Option ℝ) : ℚ :=
  match dp, d with
  | some p, some c =>
      if 0 ≤ p ∧ c < 0 then 0 else if p ≤ 0 ∧ 0 < c then 1 else 0
  | _, _ => 0

/-- Store-level `strategy.momentum_signals`: first `df = df.copy()`, then the
`ma_diff`, `ma_diff_prev` and `signal_mom` columns are assigned into the
copy; the caller's frame is never written. -/
noncomputable def momentum_signals_ref (st : Store) (r : ℕ)
    (cfg : StrategyConfig) : Store × ℕ :=
  let c := copyRef st r
  let f := readRef c.1 c.2
  let diff := List.zipWith (oMap2 (fun a b => a - b))
    (getCol f ("ma_" ++ toString cfg.mom_short_window))
    (getCol f ("ma_" ++ toString cfg.mom_long_window))
  let diffPrev := ((none : Option ℝ) :: diff).take diff.length
  let f1 := setCol f "ma_diff" diff
  let f2 := setCol f1 "ma_diff_prev" diffPrev
  let f3 := setCol f2 "signal_mom"
    (List.zipWith (fun dp d => some ((momSignalAtR dp d : ℚ) : ℝ)) diffPrev diff)
  (writeRef c.1 c.2 f3, c.2)

/-- Numeric helper: one half is nonnegative over ℚ. -/
theorem q_half_nonneg : (0 : ℚ) ≤ 1 / 2 := by norm_num

/-- C10: `fixed_fractional_position_size` ignores its `equity` argument: any
two equity values give the same result, and the result is 0 when
`stop_loss_pct ≤ 0` and `min(risk_per_trade / stop_loss_pct, max_position)`
otherwise. -/
theorem fixed_fractional_equity_independent (e1 e2 r s m : ℚ) :
    fixed_fractional_position_size e1 r s m = fixed_fractional_position_size e2 r s m ∧
    fixed_fractional_position_size e1 r s m =
      (if s ≤ 0 then 0 else min (r / s) m) := by
  constructor <;> simp [fixed_fractional_position_size]

/-- C5: `kelly_position_size` returns 0 on the guard `avg_loss = 0 ∨
win_rate ≤ 0`; otherwise it returns `clip((p*b - (1-p))/b, 0, 1/2) *
kelly_fraction` with `b = avg_win/|avg_loss|`; and for `kelly_fraction ≥ 0`
the result lies in `[0, kelly_fraction/2]`. -/
theorem kelly_position_size_spec (p aw al kf : ℚ) :
    (al = 0 ∨ p ≤ 0 → kelly_position_size p aw al kf = 0) ∧
    (¬(al = 0 ∨ p ≤ 0) →
      kelly_position_size p aw al kf =
        max 0 (min ((p * (aw / |al|) - (1 - p)) / (aw / |al|)) (1 / 2)) * kf) ∧
    (0 ≤ kf → 0 ≤ kelly_position_size p aw al kf ∧
      kelly_position_size p aw al kf ≤ 1 / 2 * kf) := by
  refine ⟨fun h => by simp [kelly_position_size, h], fun h => by simp [kelly_position_size, h], fun hkf => ?_⟩
  by_cases h : al = 0 ∨ p ≤ 0
  · simp only [kelly_position_size, if_pos h]
    exact ⟨le_rfl, by positivity⟩
  · simp only [kelly_position_size, if_neg h]
    constructor
    · exact mul_nonneg (le_max_left 0 _) hkf
    · refine mul_le_mul_of_nonneg_right ?_ hkf
      exact max_le q_half_nonneg (min_le_right _ _)

/-- C5 witness: the zero guard at `win_rate = 0`. -/
theorem kelly_position_size_spec_witness :
    ((1 : ℚ) = 0 ∨ (0 : ℚ) ≤ 0) ∧ kelly_position_size 0 1 1 (1 / 4) = 0 :=
  ⟨Or.inr le_rfl, (kelly_position_size_spec 0 1 1 (1 / 4)).1 (Or.inr le_rfl)⟩

/-- C8: `build_strategy` fails (raises `ValueError`) exactly when the
configured name is neither `mean_reversion` nor `momentum`, and returns a
strategy result without failing for those two names. -/
theorem build_strategy_error_iff (closes : List ℚ) (cfg : StrategyConfig) :
    ((∃ e, build_strategy closes cfg = Except.error e) ↔
      cfg.name ≠ "mean_reversion" ∧ cfg.name ≠ "momentum") ∧
    (cfg.name = "mean_reversion" ∨ cfg.name = "momentum" →
      ∃ r, build_strategy closes cfg = Except.ok r) := by
  by_cases h1 : cfg.name = "mean_reversion"
  · constructor
    · simp [build_strategy, h1]
    · intro _
      exact ⟨mean_reversion_signals (prepare_features closes cfg) cfg,
        by simp [build_strategy, h1]⟩
  · by_cases h2 : cfg.name = "momentum"
    · constructor
      · simp [build_strategy, h1, h2]
      · intro _
        exact ⟨momentum_signals (prepare_features closes cfg) cfg,
          by simp [build_strategy, h1, h2]⟩
    · constructor
      · simp [build_strategy, h1, h2]
      · intro h; cases h <;> simp_all

/-- C8 witness: the name `momentum` yields a result, not an error. -/
theorem build_strategy_error_iff_witness :
    (("momentum" = "mean_reversion" ∨ "momentum" = "momentum") ∧
      ∃ r, build_strategy []
        { name := "momentum", mr_window := 2, mr_threshold := 1,
          mom_short_window := 1, mom_long_window := 2 } = Except.ok r) :=
  ⟨Or.inr rfl,
    (build_strategy_error_iff []
      { name := "momentum", mr_window := 2, mr_threshold := 1,
        mom_short_window := 1, mom_long_window := 2 }).2 (Or.inr rfl)⟩

/-- C4: the regime classifier computes `trend_strength = min(ADX/25, 1)`
with an undefined ADX treated as 0; for `trend_strength > 1/2` it returns
TRENDING_UP / TRENDING_DOWN / RANGING according to the bullish and bearish
flags, for `trend_strength ≤ 1/2` it returns HIGH_VOLATILITY iff the
annualised volatility exceeds 0.3 and LOW_VOLATILITY otherwise; and the
recommended strategy is `momentum` for the two trending regimes and
LOW_VOLATILITY and `mean_reversion` for RANGING and HIGH_VOLATILITY. -/
theorem regime_classification_spec (maS maL adx : Option ℚ) (price vol : ℚ) :
    ((identify_market_state maS maL price adx vol).trend_strength =
      (match adx with
       | none => 0
       | some a => min (a / 25) 1)) ∧
    (1 / 2 < (identify_market_state maS maL price adx vol).trend_strength →
      (identify_market_state maS maL price adx vol).regime =
        (if (identify_market_state maS maL price adx vol).is_bullish then
          MarketRegime.trending_up
         else if (identify_market_state maS maL price adx vol).is_bearish then
          MarketRegime.trending_down
         else MarketRegime.ranging)) ∧
    ((identify_market_state maS maL price adx vol).trend_strength ≤ 1 / 2 →
      (identify_market_state maS maL price adx vol).regime =
        (if 3 / 10 < vol then MarketRegime.high_volatility
         else MarketRegime.low_volatility)) ∧
    (get_optimal_strategy_for_regime (identify_market_state maS maL price adx vol) =
      (match (identify_market_state maS maL price adx vol).regime with
       | MarketRegime.trending_up => "momentum"
       | MarketRegime.trending_down => "momentum"
       | MarketRegime.ranging => "mean_reversion"
       | MarketRegime.high_volatility => "mean_reversion"
       | MarketRegime.low_volatility => "momentum")) := by
  refine ⟨?_, ?_, ?_, ?_⟩
  · cases adx <;> simp [identify_market_state]
  · intro h
    simp only [identify_market_state] at h ⊢
    rw [if_pos h]
  · intro h
    simp only [identify_market_state] at h ⊢
    rw [if_neg (not_lt.mpr h)]
  · rcases hr : (identify_market_state maS maL price adx vol).regime <;>
      simp [get_optimal_strategy_for_regime, hr]

/-- C4 witness: an undefined ADX gives trend strength 0, taking the
volatility branch. -/
theorem regime_classification_spec_witness :
    ((identify_market_state none none 0 none 1).trend_strength ≤ 1 / 2) ∧
    ((identify_market_state none none 0 none 1).regime =
      (if 3 / 10 < (1 : ℚ) then MarketRegime.high_volatility
       else MarketRegime.low_volatility)) :=
  ⟨by simp [identify_market_state, q_half_nonneg],
    (regime_classification_spec none none none 0 1).2.2.1
      (by simp [identify_market_state, q_half_nonneg])⟩

/-- Indexing a `take` with a default: inside the kept prefix it agrees with
the original list, outside it gives the default. -/
theorem take_getD {α : Type} (l : List α) (n i : ℕ) (d : α) :
    (l.take n).getD i d = if i < n then l.getD i d else d := by
  induction l generalizing n i with
  | nil => simp
  | cons x xs ih =>
    cases n with
    | zero => simp
    | succ m =>
      cases i with
      | zero => simp
      | succ j => simpa using ih m j

/-- Indexing a `map` below the length. -/
theorem getD_map_of_lt {α β : Type} (f : α → β) (l : List α) (i : ℕ) (d : α)
    (d2 : β) (hi : i < l.length) : (l.map f).getD i d2 = f (l.getD i d) := by
  rw [List.getD_eq_getElem _ _ (by simpa using hi), List.getD_eq_getElem _ _ hi,
    List.getElem_map]

/-- Indexing a `zipWith` below both lengths. -/
theorem getD_zipWith_of_lt {α β γ : Type} (f : α → β → γ) (l1 : List α)
    (l2 : List β) (i : ℕ) (d1 : α) (d2 : β) (d3 : γ) (h1 : i < l1.length)
    (h2 : i < l2.length) :
    (List.zipWith f l1 l2).getD i d3 = f (l1.getD i d1) (l2.getD i d2) := by
  have hl : i < (List.zipWith f l1 l2).length := by
    rw [List.length_zipWith]; omega
  rw [List.getD_eq_getElem _ _ hl, List.getD_eq_getElem _ _ h1,
    List.getD_eq_getElem _ _ h2, List.getElem_zipWith]

/-- A scan always starts with its seed. -/
theorem scanl_head_tail (l : List ℚ) (b : ℚ) :
    l.scanl (· * ·) b = b :: (l.scanl (· * ·) b).tail := by
  cases l <;> simp [List.scanl_cons, List.scanl_nil]

/-- Index `t` of the tail of a multiplicative scan is the seed times the
product of the first `t + 1` elements. -/
theorem scanl_tail_getD (l : List ℚ) (b : ℚ) (t : ℕ) (h : t < l.length) :
    ((l.scanl (· * ·) b).tail).getD t 0 = b * (l.take (t + 1)).prod := by
  induction l generalizing b t with
  | nil => simp at h
  | cons x xs ih =>
    rw [List.scanl_cons]
    simp only [List.singleton_append, List.tail_cons]
    cases t with
    | zero =>
      have h0 : (xs.scanl (· * ·) (b * x)).getD 0 0 = b * x := by
        cases xs <;> simp [List.scanl_cons, List.scanl_nil]
      simpa using h0
    | succ n =>
      have hx : n < xs.length := by simpa using h
      have step : (xs.scanl (· * ·) (b * x)).getD (n + 1) 0 =
          ((xs.scanl (· * ·) (b * x)).tail).getD n 0 := by
        rw [scanl_head_tail xs (b * x)]
        simp
      rw [step, ih (b * x) n hx]
      simp [mul_assoc]

/-- pandas `cumprod` at index `t` is the product of the first `t + 1`
entries. -/
theorem cumprod_getD (l : List ℚ) (t : ℕ) (h : t < l.length) :
    (cumprod l).getD t 0 = (l.take (t + 1)).prod := by
  rw [cumprod, scanl_tail_getD l 1 t h, one_mul]

/-- Running maximum from an accumulator, pointwise: a left fold of `max`
over the prefix. -/
theorem cummaxFrom_getD (l : List ℚ) (m : ℚ) (t : ℕ) (h : t < l.length) :
    (cummaxFrom m l).getD t 0 = (l.take (t + 1)).foldl max m := by
  induction l generalizing m t with
  | nil => simp at h
  | cons x xs ih =>
    cases t with
    | zero => simp [cummaxFrom]
    | succ n =>
      have hx : n < xs.length := by simpa using h
      simpa [cummaxFrom] using ih (max m x) n hx

/-- pandas `cummax` at index `t` is the maximum of the first `t + 1`
entries. -/
theorem cummax_getD (l : List ℚ) (t : ℕ) (h : t < l.length) :
    (cummax l).getD t 0 = listMax (l.take (t + 1)) := by
  cases l with
  | nil => simp at h
  | cons x xs =>
    cases t with
    | zero => simp [cummax, listMax]
    | succ n =>
      have hx : n < xs.length := by simpa using h
      simp only [cummax, List.getD_cons_succ, List.take_succ_cons, listMax]
      exact cummaxFrom_getD xs x n hx

/-- Length facts for the backtest columns. -/
theorem length_shiftFill (l : List ℚ) : (shiftFill l).length = l.length := by
  simp [shiftFill]

/-- The position column has the length of the signal column. -/
theorem length_positionList (s : List ℚ) (cfg : BacktestConfig) :
    (positionList s cfg).length = s.length := by
  simp [positionList]

/-- The lagged position column has the length of the signal column. -/
theorem length_positionPrevList (s : List ℚ) (cfg : BacktestConfig) :
    (positionPrevList s cfg).length = s.length := by
  simp [positionPrevList, length_shiftFill, length_positionList]

/-- The net-return column has the length of the signal column when the raw
return column does. -/
theorem length_netRetList (s ret : List ℚ) (cfg : BacktestConfig)
    (hr : ret.length = s.length) : (netRetList s ret cfg).length = s.length := by
  simp [netRetList, turnoverList, length_positionPrevList, length_positionList, hr]

/-- The equity column has the length of the signal column when the raw
return column does. -/
theorem length_equityList (s ret : List ℚ) (cfg : BacktestConfig)
    (hr : ret.length = s.length) : (equityList s ret cfg).length = s.length := by
  simp [equityList, cumprod, List.length_scanl, length_netRetList s ret cfg hr]

/-- Index formula for `shiftFill`. -/
theorem shiftFill_getD (l : List ℚ) (t : ℕ) :
    (shiftFill l).getD t 0 =
      if t < l.length then (if t = 0 then 0 else l.getD (t - 1) 0) else 0 := by
  rw [shiftFill, take_getD]
  cases t <;> simp

/-- Index formula for the position column. -/
theorem positionList_getD (s : List ℚ) (cfg : BacktestConfig) (i : ℕ)
    (hi : i < s.length) :
    (positionList s cfg).getD i 0 = clip01 (s.getD i 0) * cfg.max_position := by
  rw [positionList, getD_map_of_lt _ s i 0 0 hi]

/-- Index formula for the lagged position column: 0 at the first bar,
`position[t-1]` afterwards. -/
theorem positionPrevList_getD (s : List ℚ) (cfg : BacktestConfig) (t : ℕ) :
    (positionPrevList s cfg).getD t 0 =
      if t < s.length then
        (if t = 0 then 0 else clip01 (s.getD (t - 1) 0) * cfg.max_position)
      else 0 := by
  rw [positionPrevList, shiftFill_getD, length_positionList]
  by_cases h : t < s.length
  · rw [if_pos h, if_pos h]
    cases t with
    | zero => rfl
    | succ n => simp only [Nat.succ_ne_zero, if_false]
                exact positionList_getD s cfg n (by omega)
  · rw [if_neg h, if_neg h]

/-- Index formula for the net-return column:
`net_ret[t] = position_prev[t] * ret[t] - |position[t] - position_prev[t]| * fee_rate`. -/
theorem netRetList_getD (s ret : List ℚ) (cfg : BacktestConfig) (i : ℕ)
    (hr : ret.length = s.length) (hi : i < s.length) :
    (netRetList s ret cfg).getD i 0 =
      (positionPrevList s cfg).getD i 0 * ret.getD i 0 -
        |(positionList s cfg).getD i 0 - (positionPrevList s cfg).getD i 0| *
          cfg.fee_rate := by
  have hpp : i < (positionPrevList s cfg).length := by
    rw [length_positionPrevList]; exact hi
  have hp : i < (positionList s cfg).length := by
    rw [length_positionList]; exact hi
  have hret : i < ret.length := by omega
  have hg : i < (List.zipWith (fun p r => p * r) (positionPrevList s cfg) ret).length := by
    rw [List.length_zipWith]; omega
  have ht : i < (turnoverList s cfg).length := by
    rw [turnoverList, List.length_zipWith]; omega
  have htf : i < ((turnoverList s cfg).map (fun x => x * cfg.fee_rate)).length := by
    rw [List.length_map]; exact ht
  rw [netRetList, getD_zipWith_of_lt (fun g f => g - f) _ _ i 0 0 0 hg htf,
    getD_zipWith_of_lt (fun p r => p * r) _ _ i 0 0 0 hpp hret,
    getD_map_of_lt (fun x => x * cfg.fee_rate) _ i 0 0 ht,
    turnoverList, getD_zipWith_of_lt (fun p q => |p - q|) _ _ i 0 0 0 hp hpp]

/-- Index formula for the equity column: the prefix product of
`1 + net_ret` scaled by the initial cash. -/
theorem equityList_getD (s ret : List ℚ) (cfg : BacktestConfig) (t : ℕ)
    (hr : ret.length = s.length) (ht : t < s.length) :
    (equityList s ret cfg).getD t 0 =
      (((netRetList s ret cfg).map (fun x => 1 + x)).take (t + 1)).prod *
        cfg.initial_cash := by
  have hn : (netRetList s ret cfg).length = s.length := length_netRetList s ret cfg hr
  have h1 : t < (cumprod ((netRetList s ret cfg).map (fun x => 1 + x))).length := by
    simp [cumprod, List.length_scanl, hn]; omega
  have h2 : t < ((netRetList s ret cfg).map (fun x => 1 + x)).length := by
    rw [List.length_map, hn]; exact ht
  rw [equityList, getD_map_of_lt _ _ t 0 0 h1, cumprod_getD _ t h2]

/-- C2 counterexample: with a nonzero fee rate, two signal series that agree
at bar 0 but differ at bar 1 give different `equity[1]`, because the fee for
the position change decided at bar 1 is charged at bar 1. -/
theorem equity_lag_fee_counterexample :
    ([(0 : ℚ), 1].getD 0 0 = [(0 : ℚ), 0].getD 0 0) ∧
    (equityList [0, 1] [0, 0] ⟨1, 1, 1 / 10⟩).getD 1 0 ≠
      (equityList [0, 0] [0, 0] ⟨1, 1, 1 / 10⟩).getD 1 0 := by
  constructor
  · rfl
  · norm_num [equityList, netRetList, positionPrevList, positionList,
      turnoverList, shiftFill, cumprod, clip01, List.scanl]

/-- C2 (amended): the executed position at bar `t` depends only on the
signals before `t`; and when the fee rate is 0 (so that no cost is charged at
`t` for the position change decided at `t`), `equity[t]` is also unchanged
under a perturbation of `signal[t]`. -/
theorem execution_lag_invariant (s1 s2 ret : List ℚ) (cfg : BacktestConfig)
    (t : ℕ) (hlen : s1.length = s2.length) (hr : ret.length = s1.length)
    (hagree : ∀ i, i < t → s1.getD i 0 = s2.getD i 0) :
    (positionPrevList s1 cfg).getD t 0 = (positionPrevList s2 cfg).getD t 0 ∧
    (cfg.fee_rate = 0 →
      (equityList s1 ret cfg).getD t 0 = (equityList s2 ret cfg).getD t 0) := by
  have hr2 : ret.length = s2.length := by omega
  constructor
  · rw [positionPrevList_getD, positionPrevList_getD, hlen]
    by_cases h : t < s2.length
    · rw [if_pos h, if_pos h]
      cases t with
      | zero => rfl
      | succ n =>
        simp only [Nat.succ_ne_zero, if_false, Nat.succ_sub_one]
        rw [hagree n (by omega)]
    · rw [if_neg h, if_neg h]
  · intro hfee
    by_cases h : t < s1.length
    · rw [equityList_getD s1 ret cfg t hr h,
        equityList_getD s2 ret cfg t hr2 (by omega)]
      have key : ((netRetList s1 ret cfg).map (fun x => 1 + x)).take (t + 1) =
          ((netRetList s2 ret cfg).map (fun x => 1 + x)).take (t + 1) := by
        apply List.ext_getElem
        · simp [List.length_take, length_netRetList s1 ret cfg hr,
            length_netRetList s2 ret cfg hr2, hlen]
        · intro i h1 h2
          have hi1 : i < s1.length := by
            simp only [List.length_take, List.length_map,
              length_netRetList s1 ret cfg hr] at h1
            omega
          have hit : i < t + 1 := by
            simp only [List.length_take] at h1
            omega
          have hm1 : i < ((netRetList s1 ret cfg).map (fun x => 1 + x)).length := by
            rw [List.length_map, length_netRetList s1 ret cfg hr]; exact hi1
          have hm2 : i < ((netRetList s2 ret cfg).map (fun x => 1 + x)).length := by
            rw [List.length_map, length_netRetList s2 ret cfg hr2]; omega
          rw [← List.getD_eq_getElem _ (0 : ℚ) h1, ← List.getD_eq_getElem _ (0 : ℚ) h2,
            take_getD, take_getD, if_pos hit, if_pos hit,
            getD_map_of_lt _ _ i 0 0 (by rw [length_netRetList s1 ret cfg hr]; exact hi1),
            getD_map_of_lt _ _ i 0 0 (by rw [length_netRetList s2 ret cfg hr2]; omega),
            netRetList_getD s1 ret cfg i hr hi1,
            netRetList_getD s2 ret cfg i hr2 (by omega), hfee, mul_zero, mul_zero]
          have hpp : (positionPrevList s1 cfg).getD i 0 =
              (positionPrevList s2 cfg).getD i 0 := by
            rw [positionPrevList_getD, positionPrevList_getD, hlen]
            by_cases hh : i < s2.length
            · rw [if_pos hh, if_pos hh]
              cases i with
              | zero => rfl
              | succ n =>
                simp only [Nat.succ_ne_zero, if_false, Nat.succ_sub_one]
                rw [hagree n (by omega)]
            · rw [if_neg hh, if_neg hh]
          rw [hpp]
      rw [key]
    · rw [List.getD_eq_default, List.getD_eq_default]
      · rw [length_equityList s2 ret cfg hr2]; omega
      · rw [length_equityList s1 ret cfg hr]; omega

/-- C2 witness: the amended invariant applied at bar 0 of a one-bar run. -/
theorem execution_lag_invariant_witness :
    ([(1 : ℚ)].length = [(0 : ℚ)].length ∧ [(0 : ℚ)].length = [(1 : ℚ)].length) ∧
    ((positionPrevList [1] ⟨1, 1, 0⟩).getD 0 0 =
        (positionPrevList [0] ⟨1, 1, 0⟩).getD 0 0 ∧
      ((⟨1, 1, 0⟩ : BacktestConfig).fee_rate = 0 →
        (equityList [1] [0] ⟨1, 1, 0⟩).getD 0 0 =
          (equityList [0] [0] ⟨1, 1, 0⟩).getD 0 0)) :=
  ⟨⟨rfl, rfl⟩,
    execution_lag_invariant [1] [0] [0] ⟨1, 1, 0⟩ 0 rfl rfl
      (fun i hi => absurd hi (Nat.not_lt_zero i))⟩

/-- A left fold of `min` never exceeds its accumulator. -/
theorem foldl_min_le_acc (l : List ℚ) (a : ℚ) : l.foldl min a ≤ a := by
  induction l generalizing a with
  | nil => simp
  | cons x xs ih => exact le_trans (ih (min a x)) (min_le_left a x)

/-- A left fold of `min` never exceeds any list element. -/
theorem foldl_min_le_mem (l : List ℚ) (a x : ℚ) (hx : x ∈ l) :
    l.foldl min a ≤ x := by
  induction l generalizing a with
  | nil => simp at hx
  | cons y ys ih =>
    rcases List.mem_cons.mp hx with h | h
    · subst h
      exact le_trans (foldl_min_le_acc ys (min a x)) (min_le_right a x)
    · exact ih (min a y) h

/-- A left fold of `min` is the accumulator or a list element. -/
theorem foldl_min_mem (l : List ℚ) (a : ℚ) :
    l.foldl min a = a ∨ l.foldl min a ∈ l := by
  induction l generalizing a with
  | nil => left; rfl
  | cons x xs ih =>
    simp only [List.foldl_cons]
    rcases ih (min a x) with h | h
    · rcases le_total a x with hax | hax
      · left; rw [h, min_eq_left hax]
      · right; rw [h, min_eq_right hax]; exact List.mem_cons_self x xs
    · right; exact List.mem_cons_of_mem x h

/-- `listMin` is a lower bound of the list. -/
theorem listMin_le (l : List ℚ) (x : ℚ) (hx : x ∈ l) : listMin l ≤ x := by
  cases l with
  | nil => simp at hx
  | cons y ys =>
    rcases List.mem_cons.mp hx with h | h
    · subst h; exact foldl_min_le_acc ys x
    · exact foldl_min_le_mem ys y x h

/-- `listMin` of a nonempty list is attained. -/
theorem listMin_mem (l : List ℚ) (h : l ≠ []) : listMin l ∈ l := by
  cases l with
  | nil => exact absurd rfl h
  | cons y ys =>
    rcases foldl_min_mem ys y with h1 | h1
    · rw [listMin, h1]; exact List.mem_cons_self y ys
    · exact List.mem_cons_of_mem y h1

/-- `cummaxFrom` preserves length. -/
theorem length_cummaxFrom (l : List ℚ) (m : ℚ) :
    (cummaxFrom m l).length = l.length := by
  induction l generalizing m with
  | nil => rfl
  | cons x xs ih => simp [cummaxFrom, ih]

/-- `cummax` preserves length. -/
theorem length_cummax (l : List ℚ) : (cummax l).length = l.length := by
  cases l with
  | nil => rfl
  | cons x xs => simp [cummax, length_cummaxFrom]

/-- The drawdown column has the equity column's length. -/
theorem length_drawdownList (equity : List ℚ) :
    (drawdownList equity).length = equity.length := by
  simp [drawdownList, length_cummax]

/-- Index formula for the drawdown column: equity over its running maximum,
minus one. -/
theorem drawdownList_getD (equity : List ℚ) (t : ℕ) (ht : t < equity.length) :
    (drawdownList equity).getD t 0 =
      equity.getD t 0 / listMax (equity.take (t + 1)) - 1 := by
  have hc : t < (cummax equity).length := by rw [length_cummax]; exact ht
  rw [drawdownList, getD_zipWith_of_lt _ _ _ t 0 0 0 ht hc, cummax_getD equity t ht]

/-- The `net_ret` column of `run_backtest` is `netRetList`. -/
theorem run_backtest_net_ret (s ret : List ℚ) (cfg : BacktestConfig) :
    (run_backtest s ret cfg).net_ret = netRetList s ret cfg := rfl

/-- The `equity` column of `run_backtest` is `equityList`. -/
theorem run_backtest_equity (s ret : List ℚ) (cfg : BacktestConfig) :
    (run_backtest s ret cfg).equity = equityList s ret cfg := rfl

/-- The reported total return. -/
theorem run_backtest_total_return (s ret : List ℚ) (cfg : BacktestConfig) :
    (run_backtest s ret cfg).stats.total_return =
      totalRetOf (equityList s ret cfg) := rfl

/-- The reported annual return. -/
theorem run_backtest_annual_return (s ret : List ℚ) (cfg : BacktestConfig) :
    (run_backtest s ret cfg).stats.annual_return =
      annRetOf (totalRetOf (equityList s ret cfg)) s.length := rfl

/-- The reported annual volatility. -/
theorem run_backtest_annual_volatility (s ret : List ℚ) (cfg : BacktestConfig) :
    (run_backtest s ret cfg).stats.annual_volatility =
      annVolOf (netRetList s ret cfg) := rfl

/-- The reported Sharpe ratio. -/
theorem run_backtest_sharpe (s ret : List ℚ) (cfg : BacktestConfig) :
    (run_backtest s ret cfg).stats.sharpe =
      sharpeOf (annRetOf (totalRetOf (equityList s ret cfg)) s.length)
        (annVolOf (netRetList s ret cfg)) := rfl

/-- The reported maximum drawdown. -/
theorem run_backtest_max_drawdown (s ret : List ℚ) (cfg : BacktestConfig) :
    (run_backtest s ret cfg).stats.max_drawdown =
      maxDrawdownOf (equityList s ret cfg) := rfl

/-- The equity column satisfies the multiplicative recurrence
`equity[t] = equity[t-1] * (1 + net_ret[t])` with `equity[-1] = initial_cash`. -/
theorem equity_recurrence (s ret : List ℚ) (cfg : BacktestConfig) (t : ℕ)
    (hr : ret.length = s.length) (ht : t < s.length) :
    (equityList s ret cfg).getD t 0 =
      (if t = 0 then cfg.initial_cash else (equityList s ret cfg).getD (t - 1) 0) *
        (1 + (netRetList s ret cfg).getD t 0) := by
  have hn : (netRetList s ret cfg).length = s.length := length_netRetList s ret cfg hr
  rw [equityList_getD s ret cfg t hr ht]
  cases t with
  | zero =>
    have h0 : (0 : ℕ) < ((netRetList s ret cfg).map (fun x => 1 + x)).length := by
      rw [List.length_map, hn]; omega
    rw [List.prod_take_succ _ 0 h0]
    simp only [List.take_zero, List.prod_nil, one_mul, eq_self_iff_true, if_true]
    rw [List.getElem_map, ← List.getD_eq_getElem _ (0 : ℚ) (by omega : 0 < (netRetList s ret cfg).length)]
    ring
  | succ n =>
    have hs : n + 1 < ((netRetList s ret cfg).map (fun x => 1 + x)).length := by
      rw [List.length_map, hn]; omega
    rw [List.prod_take_succ _ (n + 1) hs]
    simp only [Nat.succ_ne_zero, if_false, Nat.succ_sub_one]
    rw [equityList_getD s ret cfg n hr (by omega)]
    rw [List.getElem_map, ← List.getD_eq_getElem _ (0 : ℚ) (by rw [hn]; omega : n + 1 < (netRetList s ret cfg).length)]
    ring

/-- C3: on every run of at least two bars, `run_backtest` computes
`target_position[t] = clip(signal[t],0,1) * max_position`,
`net_return[t] = target_position[t-1] * raw_return[t]
  - |target_position[t] - target_position[t-1]| * fee_rate` with
`target_position[-1] = 0`, the equity recurrence
`equity[t] = equity[t-1] * (1 + net_return[t])` from `initial_cash`, and
reports `total_return = equity_last / equity_first - 1`,
`annual_return = (1 + total_return) ^ (252 / n) - 1`,
`annual_volatility = stdev(net_return) * sqrt 252` (sample standard
deviation), `sharpe = annual_return / annual_volatility` when the volatility
is positive and 0 otherwise, and `max_drawdown` = the minimum over `t` of
`equity[t] / runningMax(equity)[t] - 1`. -/
theorem run_backtest_spec (s ret : List ℚ) (cfg : BacktestConfig)
    (hr : ret.length = s.length) (hn : 2 ≤ s.length) :
    (∀ t, t < s.length →
      (run_backtest s ret cfg).net_ret.getD t 0 =
        (if t = 0 then 0 else clip01 (s.getD (t - 1) 0) * cfg.max_position) *
            ret.getD t 0 -
          |clip01 (s.getD t 0) * cfg.max_position -
              (if t = 0 then 0 else clip01 (s.getD (t - 1) 0) * cfg.max_position)| *
            cfg.fee_rate) ∧
    (∀ t, t < s.length →
      (run_backtest s ret cfg).equity.getD t 0 =
        (if t = 0 then cfg.initial_cash
         else (run_backtest s ret cfg).equity.getD (t - 1) 0) *
          (1 + (run_backtest s ret cfg).net_ret.getD t 0)) ∧
    ((run_backtest s ret cfg).stats.total_return =
      (run_backtest s ret cfg).equity.getLastD 0 /
        (run_backtest s ret cfg).equity.headD 0 - 1) ∧
    ((run_backtest s ret cfg).stats.annual_return =
      (1 + ((run_backtest s ret cfg).stats.total_return : ℝ)) ^
        ((252 : ℝ) / (s.length : ℝ)) - 1) ∧
    ((run_backtest s ret cfg).stats.annual_volatility =
      Real.sqrt
        (((((run_backtest s ret cfg).net_ret.map
              (fun x => (x - (run_backtest s ret cfg).net_ret.sum /
                ((run_backtest s ret cfg).net_ret.length : ℚ)) ^ 2)).sum /
            (((run_backtest s ret cfg).net_ret.length : ℚ) - 1) : ℚ) : ℝ)) *
        Real.sqrt 252) ∧
    ((run_backtest s ret cfg).stats.sharpe =
      (if 0 < (run_backtest s ret cfg).stats.annual_volatility then
        (run_backtest s ret cfg).stats.annual_return /
          (run_backtest s ret cfg).stats.annual_volatility
       else 0)) ∧
    (∀ t, t < s.length →
      (run_backtest s ret cfg).stats.max_drawdown ≤
        (run_backtest s ret cfg).equity.getD t 0 /
          listMax ((run_backtest s ret cfg).equity.take (t + 1)) - 1) ∧
    (∃ t, t < s.length ∧
      (run_backtest s ret cfg).stats.max_drawdown =
        (run_backtest s ret cfg).equity.getD t 0 /
          listMax ((run_backtest s ret cfg).equity.take (t + 1)) - 1) := by
  have hE : (equityList s ret cfg).length = s.length := length_equityList s ret cfg hr
  have hN : (netRetList s ret cfg).length = s.length := length_netRetList s ret cfg hr
  have hD : (drawdownList (equityList s ret cfg)).length = s.length := by
    rw [length_drawdownList, hE]
  refine ⟨?_, ?_, ?_, ?_, ?_, ?_, ?_, ?_⟩
  · intro t ht
    rw [run_backtest_net_ret, netRetList_getD s ret cfg t hr ht,
      positionPrevList_getD, if_pos ht, positionList_getD s cfg t ht]
  · intro t ht
    rw [run_backtest_equity, run_backtest_net_ret]
    exact equity_recurrence s ret cfg t hr ht
  · rw [run_backtest_total_return, run_backtest_equity, totalRetOf,
      if_pos (by rw [hE]; omega : 1 < (equityList s ret cfg).length)]
  · rw [run_backtest_annual_return, run_backtest_total_return, annRetOf,
      if_pos (by omega : 0 < s.length)]
  · rw [run_backtest_annual_volatility, run_backtest_net_ret, annVolOf, sampleVar,
      if_pos (by rw [hN]; omega : 2 ≤ (netRetList s ret cfg).length)]
  · rw [run_backtest_sharpe, run_backtest_annual_volatility,
      run_backtest_annual_return]
    rfl
  · intro t ht
    rw [run_backtest_max_drawdown, run_backtest_equity, maxDrawdownOf,
      ← drawdownList_getD (equityList s ret cfg) t (by omega)]
    have hlt : t < (drawdownList (equityList s ret cfg)).length := by omega
    rw [List.getD_eq_getElem _ _ hlt]
    exact listMin_le _ _ (List.getElem_mem hlt)
  · rw [run_backtest_max_drawdown, run_backtest_equity, maxDrawdownOf]
    have hne : drawdownList (equityList s ret cfg) ≠ [] := by
      intro hc
      rw [hc] at hD
      simp at hD
      omega
    obtain ⟨i, hilt, hi⟩ := List.getElem_of_mem (listMin_mem _ hne)
    refine ⟨i, by omega, ?_⟩
    rw [← drawdownList_getD (equityList s ret cfg) i (by omega),
      List.getD_eq_getElem _ _ hilt, hi]

/-- C3 witness: a two-bar run with unit cash, full position cap and zero
fees. -/
theorem run_backtest_spec_witness :
    ([(0 : ℚ), 0].length = [(1 : ℚ), 1].length ∧ 2 ≤ [(1 : ℚ), 1].length) ∧
    ((run_backtest [1, 1] [0, 0] ⟨1, 1, 0⟩).stats.total_return =
      (run_backtest [1, 1] [0, 0] ⟨1, 1, 0⟩).equity.getLastD 0 /
        (run_backtest [1, 1] [0, 0] ⟨1, 1, 0⟩).equity.headD 0 - 1) :=
  ⟨⟨rfl, by decide⟩,
    (run_backtest_spec [1, 1] [0, 0] ⟨1, 1, 0⟩ rfl (by decide)).2.2.1⟩

/-- A concrete mean-reversion configuration: window 2, threshold 1/2. -/
def mrBugCfg : StrategyConfig :=
  { name := "mean_reversion", mr_window := 2, mr_threshold := 1 / 2,
    mom_short_window := 1, mom_long_window := 2 }

/-- Rolling mean of `[4, 2, 2]` with window 2 at bar 0: undefined. -/
theorem mrBug_mean0 : rollingMeanAt [4, 2, 2] 2 0 = none := by
  norm_num [rollingMeanAt]

/-- Rolling mean of `[4, 2, 2]` with window 2 at bar 1. -/
theorem mrBug_mean1 : rollingMeanAt [4, 2, 2] 2 1 = some 3 := by
  norm_num [rollingMeanAt, windowAt]

/-- Rolling mean of `[4, 2, 2]` with window 2 at bar 2. -/
theorem mrBug_mean2 : rollingMeanAt [4, 2, 2] 2 2 = some 2 := by
  norm_num [rollingMeanAt, windowAt]

/-- Rolling population variance at bar 1. -/
theorem mrBug_var1 : rollingVarPopAt [4, 2, 2] 2 1 = some 1 := by
  simp only [rollingVarPopAt, mrBug_mean1]
  norm_num [windowAt]

/-- Rolling population variance at bar 2: zero (flat window). -/
theorem mrBug_var2 : rollingVarPopAt [4, 2, 2] 2 2 = some 0 := by
  simp only [rollingVarPopAt, mrBug_mean2]
  norm_num [windowAt]

/-- The z-score of `[4, 2, 2]` (window 2) at bar 0 is NaN. -/
theorem mrBug_z0 : zscoreAt [4, 2, 2] 2 0 = none := by
  simp [zscoreAt, mrBug_mean0]

/-- The z-score at bar 1 is `-1`. -/
theorem mrBug_z1 : zscoreAt [4, 2, 2] 2 1 = some (-1) := by
  simp only [zscoreAt, mrBug_mean1, mrBug_var1]
  rw [if_neg (by norm_num : (1 : ℚ) ≠ 0)]
  norm_num [Real.sqrt_one]

/-- The z-score at bar 2 is NaN: the rolling std is 0 and the source divides
0 by 0. -/
theorem mrBug_z2 : zscoreAt [4, 2, 2] 2 2 = none := by
  simp [zscoreAt, mrBug_mean2, mrBug_var2]

/-- The z-score column of the failing input. -/
theorem mrBug_zscore_column :
    (prepare_features [4, 2, 2] mrBugCfg).zscore = [none, some (-1), none] := by
  show zscoreColumn [4, 2, 2] 2 = [none, some (-1), none]
  norm_num [zscoreColumn, List.range_succ, mrBug_z0, mrBug_z1, mrBug_z2]

/-- C1: the signal generator is not the claimed state machine: the source
initialises the signal column to 0 (not NaN), so its trailing `.ffill()` is a
no-op and the signal does not hold its previous value on bars where neither
condition fires.  On closes `[4, 2, 2]` with window 2 and threshold 1/2 the
code emits `[0, 1, 0]`, while the specified state machine (entry fired at bar
1, nothing fires at bar 2, so the signal should be held at 1) yields
`[0, 1, 1]`. -/
theorem mean_reversion_no_forward_fill :
    ((mean_reversion_signals (prepare_features [4, 2, 2] mrBugCfg) mrBugCfg).signal =
      [0, 1, 0]) ∧
    (mrStateMachineSpec (1 / 2) (prepare_features [4, 2, 2] mrBugCfg).zscore 0 =
      [0, 1, 1]) ∧
    ((mean_reversion_signals (prepare_features [4, 2, 2] mrBugCfg) mrBugCfg).signal ≠
      mrStateMachineSpec (1 / 2) (prepare_features [4, 2, 2] mrBugCfg).zscore 0) := by
  have hsig :
      (mean_reversion_signals (prepare_features [4, 2, 2] mrBugCfg) mrBugCfg).signal =
        [0, 1, 0] := by
    show ((prepare_features [4, 2, 2] mrBugCfg).zscore.map (mrSignalAt (1 / 2))) =
      [0, 1, 0]
    rw [mrBug_zscore_column]
    simp only [List.map_cons, List.map_nil]
    norm_num [mrSignalAt]
  have hmach :
      mrStateMachineSpec (1 / 2) (prepare_features [4, 2, 2] mrBugCfg).zscore 0 =
        [0, 1, 1] := by
    rw [mrBug_zscore_column]
    norm_num [mrStateMachineSpec]
  refine ⟨hsig, hmach, ?_⟩
  rw [hsig, hmach]
  intro hc
  have := List.cons_eq_cons.mp (List.cons_eq_cons.mp (List.cons_eq_cons.mp hc).2).2
  norm_num at this

/-- Writing one object leaves every other object unchanged. -/
theorem readRef_writeRef_ne (st : Store) (i j : ℕ) (f : Frame) (h : i ≠ j) :
    readRef (writeRef st i f) j = readRef st j := by
  simp [readRef, writeRef, List.getD, List.getElem?_set_ne h]

/-- Allocating at the end leaves every existing object unchanged. -/
theorem readRef_append_lt (st : Store) (f : Frame) (r : ℕ) (h : r < st.length) :
    readRef (st ++ [f]) r = readRef st r := by
  show (st ++ [f]).getD r [] = st.getD r []
  exact List.getD_append st [f] [] r h

/-- C9 counterexample: each indicator helper (`features.add_moving_averages`,
`features.add_zscore`, `features.add_daily_returns`) mutates the caller's
frame in place: on a one-column frame each grows the very object the caller
passed from one column to two, and each returns the same reference rather
than a new object. -/
theorem indicator_helpers_mutate_caller :
    ((readRef (add_moving_averages [[("Close", [some 1])]] 0 [1]).1 0).length = 2 ∧
      (add_moving_averages [[("Close", [some 1])]] 0 [1]).2 = 0) ∧
    ((readRef (add_zscore [[("Close", [some 1])]] 0 1).1 0).length = 2 ∧
      (add_zscore [[("Close", [some 1])]] 0 1).2 = 0) ∧
    ((readRef (add_daily_returns [[("Close", [some 1])]] 0).1 0).length = 2 ∧
      (add_daily_returns [[("Close", [some 1])]] 0).2 = 0) ∧
    ((readRef [[("Close", [some 1])]] 0).length = 1) ∧
    (readRef (add_moving_averages [[("Close", [some 1])]] 0 [1]).1 0 ≠
      readRef [[("Close", [some 1])]] 0) ∧
    (readRef (add_zscore [[("Close", [some 1])]] 0 1).1 0 ≠
      readRef [[("Close", [some 1])]] 0) ∧
    (readRef (add_daily_returns [[("Close", [some 1])]] 0).1 0 ≠
      readRef [[("Close", [some 1])]] 0) := by
  have hma : (readRef (add_moving_averages [[("Close", [some 1])]] 0 [1]).1 0).length = 2 := by
    have hs : ("ma_" ++ toString (1 : ℕ)) = "ma_1" := rfl
    simp [add_moving_averages, readRef, writeRef, addMovingAveragesFrame, setCol, hs]
  have hz : (readRef (add_zscore [[("Close", [some 1])]] 0 1).1 0).length = 2 := by
    simp [add_zscore, readRef, writeRef, addZscoreFrame, setCol]
  have hd : (readRef (add_daily_returns [[("Close", [some 1])]] 0).1 0).length = 2 := by
    simp [add_daily_returns, readRef, writeRef, addDailyReturnsFrame, setCol]
  have h0 : (readRef [[("Close", [some 1])]] 0).length = 1 := by
    simp [readRef]
  refine ⟨⟨hma, rfl⟩, ⟨hz, rfl⟩, ⟨hd, rfl⟩, h0, fun hc => ?_, fun hc => ?_,
    fun hc => ?_⟩
  · rw [hc, h0] at hma
    exact absurd hma (by norm_num)
  · rw [hc, h0] at hz
    exact absurd hz (by norm_num)
  · rw [hc, h0] at hd
    exact absurd hd (by norm_num)

/-- C9 (amended): the pipeline stages that publish results copy before they
write: `prepare_features`, both signal generators and `run_backtest` leave
the frame behind the caller's reference unchanged and return a freshly
allocated reference; the indicator helpers (`add_moving_averages`,
`add_zscore`, `add_daily_returns`) instead return the very reference they
were given, writing their new columns through it. -/
theorem pipeline_stages_copy_inputs (st : Store) (r : ℕ) (cfg : StrategyConfig)
    (bcfg : BacktestConfig) (sc : String) (ws : List ℕ) (w : ℕ)
    (h : r < st.length) :
    (readRef (prepare_features_ref st r cfg).1 r = readRef st r ∧
      (prepare_features_ref st r cfg).2 ≠ r) ∧
    (readRef (mean_reversion_signals_ref st r cfg).1 r = readRef st r ∧
      (mean_reversion_signals_ref st r cfg).2 ≠ r) ∧
    (readRef (momentum_signals_ref st r cfg).1 r = readRef st r ∧
      (momentum_signals_ref st r cfg).2 ≠ r) ∧
    (readRef (run_backtest_ref st r sc bcfg).1 r = readRef st r ∧
      (run_backtest_ref st r sc bcfg).2 ≠ r) ∧
    ((add_moving_averages st r ws).2 = r ∧ (add_zscore st r w).2 = r ∧
      (add_daily_returns st r).2 = r) := by
  have hne : st.length ≠ r := by omega
  refine ⟨⟨?_, hne⟩, ⟨?_, hne⟩, ⟨?_, hne⟩, ⟨?_, hne⟩, rfl, rfl, rfl⟩
  · show readRef (writeRef _ st.length _) r = readRef st r
    rw [readRef_writeRef_ne _ _ _ _ hne]
    show readRef (writeRef _ st.length _) r = readRef st r
    rw [readRef_writeRef_ne _ _ _ _ hne]
    show readRef (writeRef _ st.length _) r = readRef st r
    rw [readRef_writeRef_ne _ _ _ _ hne]
    exact readRef_append_lt st _ r h
  · show readRef (writeRef _ st.length _) r = readRef st r
    rw [readRef_writeRef_ne _ _ _ _ hne]
    exact readRef_append_lt st _ r h
  · show readRef (writeRef _ st.length _) r = readRef st r
    rw [readRef_writeRef_ne _ _ _ _ hne]
    exact readRef_append_lt st _ r h
  · show readRef (writeRef _ st.length _) r = readRef st r
    rw [readRef_writeRef_ne _ _ _ _ hne]
    exact readRef_append_lt st _ r h

/-- C9 witness: a one-frame store. -/
theorem pipeline_stages_copy_inputs_witness :
    (0 < ([[]] : Store).length) ∧
    (readRef (mean_reversion_signals_ref [[]] 0
        { name := "mean_reversion", mr_window := 1, mr_threshold := 1,
          mom_short_window := 1, mom_long_window := 2 }).1 0 = readRef [[]] 0 ∧
      (mean_reversion_signals_ref [[]] 0
        { name := "mean_reversion", mr_window := 1, mr_threshold := 1,
          mom_short_window := 1, mom_long_window := 2 }).2 ≠ 0) :=
  ⟨by decide,
    (pipeline_stages_copy_inputs [[]] 0
      { name := "mean_reversion", mr_window := 1, mr_threshold := 1,
        mom_short_window := 1, mom_long_window := 2 }
      ⟨1, 1, 0⟩ "signal" [1] 1 (by decide)).2.1⟩

/-- The full window at index `t` is the entries `close[t+1-w] .. close[t]`. -/
theorem windowAt_eq_map_range (l : List ℚ) (w t : ℕ) (h1 : w ≤ t + 1)
    (h2 : t < l.length) :
    windowAt l w t = (List.range w).map (fun k => l.getD (t + 1 - w + k) 0) := by
  apply List.ext_getElem
  · simp only [windowAt, List.length_drop, List.length_take, List.length_map,
      List.length_range]
    omega
  · intro i hi1 hi2
    have hiw : i < w := by simpa using hi2
    have hidx : t + 1 - w + i < l.length := by omega
    simp only [windowAt] at hi1 ⊢
    rw [List.getElem_drop, List.getElem_take, List.getElem_map,
      List.getElem_range, List.getD_eq_getElem _ _ hidx]

/-- Sum of a list built from `List.range` as a `Finset.range` sum. -/
theorem list_range_map_sum (w : ℕ) (f : ℕ → ℚ) :
    ((List.range w).map f).sum = ∑ j ∈ Finset.range w, f j := rfl

/-- Sums of a function of the window entries are index sums over
`[t+1-w, t]`. -/
theorem windowAt_map_sum (l : List ℚ) (w t : ℕ) (f : ℚ → ℚ) (h1 : w ≤ t + 1)
    (h2 : t < l.length) :
    ((windowAt l w t).map f).sum =
      ∑ j ∈ Finset.Icc (t + 1 - w) t, f (l.getD j 0) := by
  rw [windowAt_eq_map_range l w t h1 h2, List.map_map]
  rw [list_range_map_sum]
  rw [show Finset.Icc (t + 1 - w) t = Finset.Ico (t + 1 - w) (t + 1) from
    (Nat.Ico_succ_right _ _).symm]
  rw [Finset.sum_Ico_eq_sum_range]
  have hww : t + 1 - (t + 1 - w) = w := by omega
  rw [hww]
  rfl

/-- Sum of the window entries as an index sum. -/
theorem windowAt_sum (l : List ℚ) (w t : ℕ) (h1 : w ≤ t + 1)
    (h2 : t < l.length) :
    (windowAt l w t).sum = ∑ j ∈ Finset.Icc (t + 1 - w) t, l.getD j 0 := by
  have := windowAt_map_sum l w t id h1 h2
  simpa using this

/-- C7: for a window `w ≥ 1`, the z-score is undefined at every bar with
fewer than `w` closes available; at every bar with a full window it equals
`(close[t] - mean) / std` where `mean` is the average of the last `w` closes
and `std` the population standard deviation (divisor `w`, not `w - 1`); and
it is a defined (finite) number whenever that standard deviation is
positive. -/
theorem add_zscore_spec (closes : List ℚ) (w : ℕ) (hw : 1 ≤ w) :
    (∀ t, t + 1 < w → zscoreAt closes w t = none) ∧
    (∀ t, w ≤ t + 1 → t < closes.length →
      0 < (∑ j ∈ Finset.Icc (t + 1 - w) t,
            (closes.getD j 0 -
              (∑ j ∈ Finset.Icc (t + 1 - w) t, closes.getD j 0) / w) ^ 2) / w →
      zscoreAt closes w t =
        some (((closes.getD t 0 -
            (∑ j ∈ Finset.Icc (t + 1 - w) t, closes.getD j 0) / w : ℚ) : ℝ) /
          Real.sqrt (((∑ j ∈ Finset.Icc (t + 1 - w) t,
              (closes.getD j 0 -
                (∑ j ∈ Finset.Icc (t + 1 - w) t, closes.getD j 0) / w) ^ 2) / w
            : ℚ) : ℝ)) ∧
      (zscoreAt closes w t).isSome) := by
  constructor
  · intro t ht
    have hm : rollingMeanAt closes w t = none := by
      rw [rollingMeanAt, if_neg]
      rintro ⟨hc, -⟩
      omega
    simp [zscoreAt, hm]
  · intro t h1 h2 hv
    have hm : rollingMeanAt closes w t =
        some ((∑ j ∈ Finset.Icc (t + 1 - w) t, closes.getD j 0) / w) := by
      rw [rollingMeanAt, if_pos ⟨h1, h2⟩, windowAt_sum closes w t h1 h2]
    have hvv : rollingVarPopAt closes w t =
        some ((∑ j ∈ Finset.Icc (t + 1 - w) t,
          (closes.getD j 0 -
            (∑ j ∈ Finset.Icc (t + 1 - w) t, closes.getD j 0) / w) ^ 2) / w) := by
      simp only [rollingVarPopAt, hm]
      rw [windowAt_map_sum closes w t _ h1 h2]
    have hz : zscoreAt closes w t =
        some (((closes.getD t 0 -
            (∑ j ∈ Finset.Icc (t + 1 - w) t, closes.getD j 0) / w : ℚ) : ℝ) /
          Real.sqrt (((∑ j ∈ Finset.Icc (t + 1 - w) t,
              (closes.getD j 0 -
                (∑ j ∈ Finset.Icc (t + 1 - w) t, closes.getD j 0) / w) ^ 2) / w
            : ℚ) : ℝ)) := by
      simp only [zscoreAt, hm, hvv]
      rw [if_neg (ne_of_gt hv)]
      norm_cast
    exact ⟨hz, by rw [hz]; rfl⟩

/-- C7 witness: with window 2, bar 0 has an unfilled window and an undefined
z-score. -/
theorem add_zscore_spec_witness :
    (1 ≤ 2 ∧ 0 + 1 < 2) ∧ zscoreAt [1] 2 0 = none :=
  ⟨⟨by decide, by decide⟩, (add_zscore_spec [1] 2 (by decide)).1 0 (by decide)⟩

/-- An in-range `getD` is a list member. -/
theorem getD_mem_of_lt {α : Type} (l : List α) (i : ℕ) (d : α)
    (h : i < l.length) : l.getD i d ∈ l := by
  rw [List.getD_eq_getElem _ _ h]
  exact List.getElem_mem h

/-- The head of a list, when it exists, is a member. -/
theorem mem_of_head?_some {α : Type} (l : List α) (x : α)
    (h : l.head? = some x) : x ∈ l := by
  cases l with
  | nil => cases h
  | cons a as =>
    have hax : a = x := by simpa using h
    rw [← hax]
    exact List.mem_cons_self a as

/-- In a strictly sorted list the head, when it exists, is minimal. -/
theorem head?_min_of_sorted (l : List ℕ) (hl : l.Pairwise (· < ·)) (x : ℕ)
    (hx : l.head? = some x) : ∀ y ∈ l, x ≤ y := by
  cases l with
  | nil => cases hx
  | cons a as =>
    have hax : a = x := by simpa using hx
    subst hax
    intro y hy
    rcases List.mem_cons.mp hy with h | h
    · exact le_of_eq h.symm
    · exact le_of_lt ((List.pairwise_cons.mp hl).1 y h)

/-- The length of a `filterMap` counts the inputs on which the function
succeeds. -/
theorem length_filterMap_eq {α β : Type} (f : α → Option β) (l : List α) :
    (l.filterMap f).length = (l.filter (fun a => (f a).isSome)).length := by
  induction l with
  | nil => rfl
  | cons x xs ih =>
    cases hfx : f x <;>
      simp [List.filterMap_cons, List.filter_cons, hfx, ih]

/-- `firstExitAfter` succeeds exactly when some exit lies after the entry. -/
theorem firstExitAfter_isSome (exits : List ℕ) (e : ℕ) :
    (firstExitAfter exits e).isSome = exits.any (fun x => decide (e < x)) := by
  induction exits with
  | nil => rfl
  | cons y ys ih =>
    by_cases h : e < y
    · simp [firstExitAfter, List.filter_cons, h]
    · simp only [firstExitAfter, List.filter_cons, decide_eq_true_eq, h,
        if_false, List.any_cons, decide_eq_false h, Bool.false_or]
      exact ih

/-- The exit index list is strictly sorted (it filters `List.range`). -/
theorem exitPoints_sorted (signals : List ℚ) :
    (exitPoints signals).Pairwise (· < ·) := by
  exact (List.pairwise_lt_range _).filter _

/-- Sum of a list of negative numbers is nonpositive. -/
theorem sum_nonpos_of_negs (l : List ℚ) (h : ∀ x ∈ l, x < 0) : l.sum ≤ 0 := by
  induction l with
  | nil => simp
  | cons x xs ih =>
    have hx : x < 0 := h x (List.mem_cons_self x xs)
    have hxs : xs.sum ≤ 0 := ih (fun y hy => h y (List.mem_cons_of_mem x hy))
    simp only [List.sum_cons]
    linarith

/-- Summing absolute values of negative numbers negates the sum. -/
theorem sum_abs_of_negs (l : List ℚ) (h : ∀ x ∈ l, x < 0) :
    (l.map (fun x => |x|)).sum = -l.sum := by
  induction l with
  | nil => simp
  | cons x xs ih =>
    have hx : x < 0 := h x (List.mem_cons_self x xs)
    have hxs := ih (fun y hy => h y (List.mem_cons_of_mem x hy))
    simp only [List.map_cons, List.sum_cons, hxs, abs_of_neg hx]
    ring

/-- The absolute value of the mean of negative numbers is the mean of their
absolute values. -/
theorem abs_mean_of_negs (l : List ℚ) (h : ∀ x ∈ l, x < 0) :
    |l.sum / (l.length : ℚ)| = (l.map (fun x => |x|)).sum / (l.length : ℚ) := by
  rw [abs_div, abs_of_nonpos (sum_nonpos_of_negs l h), sum_abs_of_negs l h,
    Nat.abs_cast]

/-- `num_trades` is the number of completed trades in both branches of the
source (the zero-trade early returns included). -/
theorem num_trades_eq_length (equity signals : List ℚ) :
    (calculate_trade_statistics equity signals).num_trades =
      (tradeReturnsList equity signals).length := by
  by_cases h : (tradeReturnsList equity signals).length = 0 <;>
    simp [calculate_trade_statistics, h]

/-- For values in the signal alphabet, a difference of 1 is exactly a 0-to-1
transition. -/
theorem diff_eq_one_iff (a b : ℚ) (ha : a = 0 ∨ a = 1) (hb : b = 0 ∨ b = 1) :
    b - a = 1 ↔ (a = 0 ∧ b = 1) := by
  rcases ha with h | h <;> rcases hb with h2 | h2 <;> subst h <;> subst h2 <;>
    norm_num

/-- For values in the signal alphabet, a difference of -1 is exactly a 1-to-0
transition. -/
theorem diff_eq_neg_one_iff (a b : ℚ) (ha : a = 0 ∨ a = 1) (hb : b = 0 ∨ b = 1) :
    b - a = -1 ↔ (a = 1 ∧ b = 0) := by
  rcases ha with h | h <;> rcases hb with h2 | h2 <;> subst h <;> subst h2 <;>
    norm_num

/-- C6: on a 0/1 signal series, the trade analyzer treats each 0-to-1 signal
transition as an entry and each 1-to-0 transition as an exit, pairs each entry
with the nearest following exit (dropping trailing entries with no following
exit), computes each trade's return as the compounded product of the
per-period equity returns over the inclusive range from entry to exit minus
one, and reports num_trades, win_rate = fraction of trades with positive
return, avg_win = mean positive trade return, avg_loss = mean absolute value
of the negative trade returns, with every field 0 when no completed trade
exists. -/
theorem calculate_trade_statistics_spec (equity signals : List ℚ)
    (h01 : ∀ x ∈ signals, x = 0 ∨ x = 1) :
    (∀ i, i ∈ entryPoints signals ↔
      0 < i ∧ i < signals.length ∧ signals.getD (i - 1) 0 = 0 ∧
        signals.getD i 0 = 1) ∧
    (∀ i, i ∈ exitPoints signals ↔
      0 < i ∧ i < signals.length ∧ signals.getD (i - 1) 0 = 1 ∧
        signals.getD i 0 = 0) ∧
    ((calculate_trade_statistics equity signals).num_trades =
      ((entryPoints signals).filter
        (fun e => (exitPoints signals).any (fun x => decide (e < x)))).length) ∧
    (∀ e x, firstExitAfter (exitPoints signals) e = some x →
      x ∈ exitPoints signals ∧ e < x ∧
        ∀ y ∈ exitPoints signals, e < y → x ≤ y) ∧
    (∀ e x, tradeReturn equity e x =
      (∏ j ∈ Finset.Icc e x,
        (1 + (equity.getD j 0 / equity.getD (j - 1) 0 - 1))) - 1) ∧
    (tradeReturnsList equity signals ≠ [] →
      ((calculate_trade_statistics equity signals).win_rate =
        (((tradeReturnsList equity signals).filter
            (fun x => decide (0 < x))).length : ℚ) /
          ((tradeReturnsList equity signals).length : ℚ)) ∧
      (((tradeReturnsList equity signals).filter (fun x => decide (0 < x))) ≠ [] →
        (calculate_trade_statistics equity signals).avg_win =
          ((tradeReturnsList equity signals).filter (fun x => decide (0 < x))).sum /
            ((((tradeReturnsList equity signals).filter
              (fun x => decide (0 < x))).length : ℚ))) ∧
      (((tradeReturnsList equity signals).filter (fun x => decide (x < 0))) ≠ [] →
        (calculate_trade_statistics equity signals).avg_loss =
          (((tradeReturnsList equity signals).filter (fun x => decide (x < 0))).map
            (fun x => |x|)).sum /
            ((((tradeReturnsList equity signals).filter
              (fun x => decide (x < 0))).length : ℚ)))) ∧
    (tradeReturnsList equity signals = [] →
      calculate_trade_statistics equity signals =
        { win_rate := 0, avg_win := 0, avg_loss := 0, num_trades := 0 }) := by
  refine ⟨?_, ?_, ?_, ?_, ?_, ?_, ?_⟩
  · intro i
    simp only [entryPoints, List.mem_filter, List.mem_range, Bool.and_eq_true,
      decide_eq_true_eq]
    constructor
    · rintro ⟨hin, hpos, hdiff⟩
      have h1m := h01 _ (getD_mem_of_lt signals (i - 1) 0 (by omega))
      have h2m := h01 _ (getD_mem_of_lt signals i 0 hin)
      have hh := (diff_eq_one_iff _ _ h1m h2m).mp hdiff
      exact ⟨hpos, hin, hh.1, hh.2⟩
    · rintro ⟨hpos, hin, h0, h1v⟩
      exact ⟨hin, hpos, by rw [h0, h1v]; norm_num⟩
  · intro i
    simp only [exitPoints, List.mem_filter, List.mem_range, Bool.and_eq_true,
      decide_eq_true_eq]
    constructor
    · rintro ⟨hin, hpos, hdiff⟩
      have h1m := h01 _ (getD_mem_of_lt signals (i - 1) 0 (by omega))
      have h2m := h01 _ (getD_mem_of_lt signals i 0 hin)
      have hh := (diff_eq_neg_one_iff _ _ h1m h2m).mp hdiff
      exact ⟨hpos, hin, hh.1, hh.2⟩
    · rintro ⟨hpos, hin, h0, h1v⟩
      exact ⟨hin, hpos, by rw [h0, h1v]; norm_num⟩
  · rw [num_trades_eq_length, tradeReturnsList, length_filterMap_eq]
    apply congrArg List.length
    apply List.filter_congr
    intro e he
    rw [show (Option.map (fun x => tradeReturn equity e x)
          (firstExitAfter (exitPoints signals) e)).isSome =
        (firstExitAfter (exitPoints signals) e).isSome from by
      cases firstExitAfter (exitPoints signals) e <;> rfl]
    exact firstExitAfter_isSome _ e
  · intro e x hex
    have hmem' : x ∈ (exitPoints signals).filter (fun y => decide (e < y)) :=
      mem_of_head?_some _ _ hex
    have hmem := (List.mem_filter.mp hmem').1
    have hlt : e < x := by
      have := (List.mem_filter.mp hmem').2
      simpa using this
    refine ⟨hmem, hlt, fun y hy hey => ?_⟩
    have hsorted : ((exitPoints signals).filter
        (fun z => decide (e < z))).Pairwise (· < ·) :=
      (exitPoints_sorted signals).filter _
    exact head?_min_of_sorted _ hsorted x hex y
      (List.mem_filter.mpr ⟨hy, by simpa using hey⟩)
  · intro e x
    rw [tradeReturn,
      show Finset.Icc e x = Finset.Ico e (x + 1) from (Nat.Ico_succ_right _ _).symm,
      Finset.prod_Ico_eq_prod_range]
    rfl
  · intro hne
    have hlen : ¬((tradeReturnsList equity signals).length = 0) := by
      simpa [List.length_eq_zero] using hne
    refine ⟨?_, ?_, ?_⟩
    · simp [calculate_trade_statistics, hlen]
    · intro hwne
      have hw0 : ¬(((tradeReturnsList equity signals).filter
          (fun x => decide (0 < x))).length = 0) := by
        simpa [List.length_eq_zero] using hwne
      simp [calculate_trade_statistics, hlen, hw0]
    · intro hlne
      have hl0 : ¬(((tradeReturnsList equity signals).filter
          (fun x => decide (x < 0))).length = 0) := by
        simpa [List.length_eq_zero] using hlne
      have hstep : (calculate_trade_statistics equity signals).avg_loss =
          |((tradeReturnsList equity signals).filter (fun x => decide (x < 0))).sum /
            ((((tradeReturnsList equity signals).filter
              (fun x => decide (x < 0))).length : ℚ))| := by
        simp [calculate_trade_statistics, hlen, hl0]
      rw [hstep]
      exact abs_mean_of_negs _ (fun y hy => by
        simpa using (List.mem_filter.mp hy).2)
  · intro htr
    simp [calculate_trade_statistics, htr]

/-- C6 witness: the all-flat one-bar signal series. -/
theorem calculate_trade_statistics_spec_witness :
    (∀ x ∈ [(0 : ℚ)], x = 0 ∨ x = 1) ∧
    (0 ∈ entryPoints [(0 : ℚ)] ↔
      0 < 0 ∧ 0 < [(0 : ℚ)].length ∧ [(0 : ℚ)].getD (0 - 1) 0 = 0 ∧
        [(0 : ℚ)].getD 0 0 = 1) :=
  ⟨fun x hx => Or.inl (by simpa using hx),
    (calculate_trade_statistics_spec [1] [0]
      (fun x hx => Or.inl (by simpa using hx))).1 0⟩
